import Mathlib

/-!
Verification of the reference extractor and pack ownership index of the
`packs` static-analysis tool.

The development shallowly embeds the two core source files:

* `src/packs/parser.rs` — Ruby-AST visitor collecting constant references
  and definitions (`calculate_module_nesting`, `fetch_const_name`,
  `fetch_const_const_name`, `fetch_casgn_name`, the `ReferenceCollector`
  visitor, and `extract_from_contents`);
* `src/packs/pack_set.rs` — `PackSet::build`, `for_file`, `for_pack`,
  `root_pack`.

Rust `String` becomes Lean `String`; `Vec<T>` becomes `List T` (push =
append at the end, pop = `dropLast`, `insert(0, x)` = cons); `HashMap`
becomes an association list whose insert prepends (so a lookup finds the
most recent binding, matching overwrite semantics); a Rust `panic!` is the
`none` value of an `Option`-returning function (`some` = normal return).
The Ruby parser itself (`lib_ruby_parser`) and the byte-offset to
row/column translation (`line_col`) are external crates, so the parse
result (`Option RNode`) and the offset lookup function are inputs of the
embedded `extract_from_contents`.
-/

/-! ## Strings joined with `::`

`Vec::join("::")` in Rust: the empty list gives `""`, otherwise the
elements are interleaved with the separator `::`. -/

/-- Rust `Vec<String>::join("::")`: elements interleaved with `"::"`. -/
def joinDoubleColon (l : List String) : String :=
  match l with
  | [] => ""
  | x :: rest => rest.foldl (fun a b => a ++ "::" ++ b) x

/-! ## `calculate_module_nesting` (src/packs/parser.rs lines 223-238)

The Rust function folds over the namespace stack keeping the previously
joined name (`previous`), and `insert(0, ..)`s every new cumulative name,
so the result lists cumulative names innermost first. -/

/-- Embedding of `calculate_module_nesting` from `src/packs/parser.rs`:
fold over the stack with the running joined name, prepending each new
cumulative name (Rust `nesting.insert(0, new_nesting)`). -/
def calculate_module_nesting (namespace_nesting : List String) : List String :=
  (namespace_nesting.foldl
    (fun (acc : List String × String) namespace_ =>
      let new_nesting : String :=
        if acc.2 = "" then namespace_ else acc.2 ++ "::" ++ namespace_
      (new_nesting :: acc.1, new_nesting))
    ([], "")).1

/-- The nonempty prefixes of a list, outermost (shortest) first. -/
def cumulative_prefixes : List String → List (List String)
  | [] => []
  | x :: rest => [x] :: (cumulative_prefixes rest).map (fun p => x :: p)

/-- Modelled from the spec's words (§4.1 nesting computation): the list of
cumulative `::`-joined prefixes of the namespace stack, ordered innermost
first. -/
def cumulative_nesting (xs : List String) : List String :=
  ((cumulative_prefixes xs).map joinDoubleColon).reverse

/-- The left scan of cumulative joined names produced by the fold of
`calculate_module_nesting`, in outermost-first order. -/
def scan_joins (prev : String) : List String → List String
  | [] => []
  | x :: rest =>
    let nn : String := if prev = "" then x else prev ++ "::" ++ x
    nn :: scan_joins nn rest

theorem calculate_module_nesting_foldl (xs : List String) :
    ∀ (done : List String) (prev : String),
      (xs.foldl
        (fun (acc : List String × String) namespace_ =>
          let new_nesting : String :=
            if acc.2 = "" then namespace_ else acc.2 ++ "::" ++ namespace_
          (new_nesting :: acc.1, new_nesting))
        (done, prev)).1 = (scan_joins prev xs).reverse ++ done := by
  induction xs with
  | nil => intro done prev; simp [scan_joins]
  | cons x rest ih =>
    intro done prev
    simp only [List.foldl_cons, scan_joins, List.reverse_cons, List.append_assoc]
    rw [ih]
    simp

theorem calculate_module_nesting_eq_scan (xs : List String) :
    calculate_module_nesting xs = (scan_joins "" xs).reverse := by
  unfold calculate_module_nesting
  rw [calculate_module_nesting_foldl xs [] ""]
  simp

theorem joinDoubleColon_concat (p : List String) (x : String) (hp : p ≠ []) :
    joinDoubleColon (p ++ [x]) = joinDoubleColon p ++ "::" ++ x := by
  cases p with
  | nil => exact absurd rfl hp
  | cons a t =>
    simp only [joinDoubleColon, List.cons_append, List.foldl_append, List.foldl_cons,
      List.foldl_nil]

theorem append_sep_ne_empty (s x : String) : s ++ "::" ++ x ≠ "" := by
  intro h
  have hlen := congrArg String.length h
  simp only [String.length_append] at hlen
  have h2 : ("::" : String).length = 2 := by decide
  have h0 : ("" : String).length = 0 := by decide
  omega

theorem scan_joins_spec (xs : List String) :
    ∀ (p : List String),
      (∀ x ∈ xs, x ≠ "") →
      (joinDoubleColon p = "" → p = []) →
      scan_joins (joinDoubleColon p) xs =
        (cumulative_prefixes xs).map (fun q => joinDoubleColon (p ++ q)) := by
  induction xs with
  | nil => intro p _ _; simp [scan_joins, cumulative_prefixes]
  | cons x rest ih =>
    intro p hxs hp
    have hx : x ≠ "" := hxs x (List.mem_cons_self x rest)
    have hrest : ∀ y ∈ rest, y ≠ "" := fun y hy => hxs y (List.mem_cons_of_mem x hy)
    have hnn : (if joinDoubleColon p = "" then x
        else joinDoubleColon p ++ "::" ++ x) = joinDoubleColon (p ++ [x]) := by
      by_cases hpe : joinDoubleColon p = ""
      · have : p = [] := hp hpe
        subst this
        simp [hpe, joinDoubleColon]
      · rw [if_neg hpe, joinDoubleColon_concat p x]
        intro hnil
        subst hnil
        exact hpe (by simp [joinDoubleColon])
    have hne' : joinDoubleColon (p ++ [x]) = "" → p ++ [x] = [] := by
      intro he
      exfalso
      by_cases hpe : p = []
      · subst hpe
        simp [joinDoubleColon] at he
        exact hx he
      · rw [joinDoubleColon_concat p x hpe] at he
        exact append_sep_ne_empty _ _ he
    simp only [scan_joins, cumulative_prefixes, List.map_cons, List.map_map]
    rw [hnn, ih (p ++ [x]) hrest hne']
    congr 1
    apply List.map_congr_left
    intro q _
    simp [Function.comp, List.append_assoc]

theorem calculate_module_nesting_length_aux (xs : List String) :
    ∀ prev, (scan_joins prev xs).length = xs.length := by
  induction xs with
  | nil => intro prev; rfl
  | cons x rest ih => intro prev; simp [scan_joins, ih]

/-- Claim C1 (amended): on every namespace stack whose entries are nonempty
names, `calculate_module_nesting` returns the cumulative `::`-joined
prefixes ordered innermost first; the length always equals the stack
depth; the example `["Foo","Bar","Baz"]` and the empty stack behave as
stated. -/
theorem c1_calculate_module_nesting_amended :
    (∀ xs : List String, (∀ x ∈ xs, x ≠ "") →
      calculate_module_nesting xs = cumulative_nesting xs) ∧
    calculate_module_nesting ["Foo", "Bar", "Baz"] =
      ["Foo::Bar::Baz", "Foo::Bar", "Foo"] ∧
    calculate_module_nesting [] = [] ∧
    (∀ xs : List String, (calculate_module_nesting xs).length = xs.length) := by
  refine ⟨?_, by decide, by decide, ?_⟩
  · intro xs hxs
    rw [calculate_module_nesting_eq_scan]
    have h0 : joinDoubleColon ([] : List String) = "" := rfl
    have := scan_joins_spec xs [] hxs (fun _ => rfl)
    rw [h0] at this
    rw [this]
    unfold cumulative_nesting
    rfl
  · intro xs
    rw [calculate_module_nesting_eq_scan]
    simp [calculate_module_nesting_length_aux]

/-- Claim C1, as stated, is false: on the stack `["", "A"]` (an entry that
is the empty string) the code returns `["A", ""]`, while the cumulative
`::`-joined prefixes innermost first are `["::A", ""]`. -/
theorem c1_calculate_module_nesting_counterexample :
    calculate_module_nesting ["", "A"] = ["A", ""] ∧
    cumulative_nesting ["", "A"] = ["::A", ""] ∧
    calculate_module_nesting ["", "A"] ≠ cumulative_nesting ["", "A"] := by
  refine ⟨by decide, by decide, by decide⟩

/-- Witness for the amended claim C1 at the stack `["Foo","Bar","Baz"]`. -/
theorem c1_calculate_module_nesting_witness :
    (∀ x ∈ ["Foo", "Bar", "Baz"], x ≠ "") ∧
    calculate_module_nesting ["Foo", "Bar", "Baz"] =
      cumulative_nesting ["Foo", "Bar", "Baz"] :=
  ⟨by decide, c1_calculate_module_nesting_amended.1 ["Foo", "Bar", "Baz"] (by decide)⟩

/-! ## The Ruby AST fragment and name resolution
(src/packs/parser.rs lines 62-201)

`RNode` embeds the `lib_ruby_parser` node kinds the visitor inspects:
`Const`, `Cbase`, `Send`, `Lvar`, `Ivar`, `Self_`, `Class`, `Module`,
`Casgn`; every other node kind is `other`, whose children the default
visitor implementation traverses in order (as do `Send`'s child nodes).
`Location` embeds `expression_l`'s byte range (`end` is a Lean keyword, so
the second field is `end_`). -/

/-- Byte range of a node (`expression_l.begin` / `expression_l.end`). -/
structure Location where
  begin : Nat
  end_ : Nat
deriving DecidableEq

/-- The Ruby AST fragment traversed by the collector. -/
inductive RNode where
  | const (scope : Option RNode) (name : String) (expression_l : Location)
  | cbase (expression_l : Location)
  | send (children : List RNode) (expression_l : Location)
  | lvar (expression_l : Location)
  | ivar (expression_l : Location)
  | self_ (expression_l : Location)
  | class_ (name : RNode) (superclass : Option RNode) (body : Option RNode)
      (expression_l : Location)
  | module_ (name : RNode) (body : Option RNode) (expression_l : Location)
  | casgn (scope : Option RNode) (name : String) (value : Option RNode)
      (expression_l : Location)
  | other (children : List RNode) (expression_l : Location)

/-- Outcome of `fetch_const_name`: `Ok(name)`, `Err(Metaprogramming)`, or
the `panic!` of the catch-all arm. -/
inductive ConstName where
  | resolved (name : String)
  | metaprogramming
  | unhandled
deriving DecidableEq

/-- Embedding of `fetch_const_name` (with `fetch_const_const_name`'s
recursion inlined for the `Const` arm): `Const` resolves through its
scope, `Cbase` resolves to `""`, `Send`/`Lvar`/`Ivar`/`Self_` are the
`Metaprogramming` error, anything else is the `panic!` arm. -/
def fetch_const_name : RNode → ConstName
  | RNode.const none name _ => ConstName.resolved name
  | RNode.const (some s) name _ =>
    match fetch_const_name s with
    | ConstName.resolved parent_namespace =>
      ConstName.resolved (parent_namespace ++ "::" ++ name)
    | e => e
  | RNode.cbase _ => ConstName.resolved ""
  | RNode.send _ _ => ConstName.metaprogramming
  | RNode.lvar _ => ConstName.metaprogramming
  | RNode.ivar _ => ConstName.metaprogramming
  | RNode.self_ _ => ConstName.metaprogramming
  | _ => ConstName.unhandled

/-- Embedding of `fetch_const_const_name`, taking the `Const` node's
`scope` and `name` fields. -/
def fetch_const_const_name (scope : Option RNode) (name : String) : ConstName :=
  match scope with
  | some s =>
    match fetch_const_name s with
    | ConstName.resolved parent_namespace =>
      ConstName.resolved (parent_namespace ++ "::" ++ name)
    | e => e
  | none => ConstName.resolved name

/-- Embedding of `fetch_casgn_name`, taking the `Casgn` node's `scope` and
`name` fields. -/
def fetch_casgn_name (scope : Option RNode) (name : String) : ConstName :=
  match scope with
  | some s =>
    match fetch_const_name s with
    | ConstName.resolved parent_namespace =>
      ConstName.resolved (parent_namespace ++ "::" ++ name)
    | e => e
  | none => ConstName.resolved name

/-- A collected reference before row/column resolution. -/
structure ParsedReference where
  name : String
  module_nesting : List String
  location : Location
deriving DecidableEq

/-- A collected definition (fully qualified name plus byte range). -/
structure ParsedDefinition where
  fully_qualified_name : String
  location : Location
deriving DecidableEq

/-- The visitor state: collected references and definitions plus the
namespace stack (outermost first, `Vec::push`/`pop` at the end). -/
structure ReferenceCollector where
  references : List ParsedReference
  definitions : List ParsedDefinition
  current_namespaces : List String
deriving DecidableEq

/-! The visitor. `visitNode c n = none` models a `panic!` escaping the
traversal; `some c'` is the updated collector. `visitOpt` visits an
optional child, `visitList` visits children in order (the default
behaviour of the `Visitor` trait for node kinds without an override).

`on_class` (lines 114-152): fetch the name; on error return; visit the
superclass if present; record the definition from the *cloned* namespace
stack plus the name; push the name; visit the body; pop.
Note that `self.visit(&node.name)` is commented out in the source, so the
class name expression is never visited.
`on_casgn` (lines 154-173): fetch the name; on error return; record the
definition; the assigned value is never visited.
`on_module` (lines 176-186): fetch the name, `.expect`ing success (so any
error is a panic); push; visit the body; pop.
`on_const` (lines 188-201): if the name resolves, record a reference with
`calculate_module_nesting` of the current stack; the scope child is not
visited. -/

mutual

/-- Embedding of the `ReferenceCollector` visitor dispatch. -/
def visitNode (c : ReferenceCollector) : RNode → Option ReferenceCollector
  | RNode.const scope name expression_l =>
    match fetch_const_const_name scope name with
    | ConstName.resolved n =>
      some { c with references := c.references ++
        [(⟨n, calculate_module_nesting c.current_namespaces,
          expression_l⟩ : ParsedReference)] }
    | ConstName.metaprogramming => some c
    | ConstName.unhandled => none
  | RNode.cbase _ => some c
  | RNode.send children _ => visitList c children
  | RNode.lvar _ => some c
  | RNode.ivar _ => some c
  | RNode.self_ _ => some c
  | RNode.class_ name superclass body expression_l =>
    match fetch_const_name name with
    | ConstName.unhandled => none
    | ConstName.metaprogramming => some c
    | ConstName.resolved namespace_ =>
      (visitOpt c superclass).bind fun s1 =>
        let fully_qualified_name :=
          joinDoubleColon (s1.current_namespaces ++ [namespace_])
        let s2 := { s1 with definitions := s1.definitions ++
          [(⟨fully_qualified_name, expression_l⟩ : ParsedDefinition)] }
        let s3 := { s2 with current_namespaces :=
          s2.current_namespaces ++ [namespace_] }
        (visitOpt s3 body).map fun s4 =>
          { s4 with current_namespaces := s4.current_namespaces.dropLast }
  | RNode.module_ name body _ =>
    match fetch_const_name name with
    | ConstName.resolved namespace_ =>
      let s1 := { c with current_namespaces :=
        c.current_namespaces ++ [namespace_] }
      (visitOpt s1 body).map fun s2 =>
        { s2 with current_namespaces := s2.current_namespaces.dropLast }
    | _ => none
  | RNode.casgn scope name _value expression_l =>
    match fetch_casgn_name scope name with
    | ConstName.resolved n =>
      some { c with definitions := c.definitions ++
        [(⟨joinDoubleColon (c.current_namespaces ++ [n]),
          expression_l⟩ : ParsedDefinition)] }
    | ConstName.metaprogramming => some c
    | ConstName.unhandled => none
  | RNode.other children _ => visitList c children

/-- Visit an optional child node. -/
def visitOpt (c : ReferenceCollector) : Option RNode → Option ReferenceCollector
  | none => some c
  | some n => visitNode c n

/-- Visit children in order, threading the collector. -/
def visitList (c : ReferenceCollector) : List RNode → Option ReferenceCollector
  | [] => some c
  | n :: rest => (visitNode c n).bind fun c' => visitList c' rest

end

/-! ## `extract_from_contents` (src/packs/parser.rs lines 265-325)

The parse result of the external `lib_ruby_parser` crate is an input
(`ast_option : Option RNode`, `None` when no syntax tree is produced), as
is the byte-offset → (row, col) lookup of the external `line_col` crate.
A `none` result of the whole function models a `panic!` escaping it. -/

/-- The reported (row, column) range of a reference. -/
structure Range where
  start_row : Nat
  start_col : Nat
  end_row : Nat
  end_col : Nat
deriving DecidableEq

/-- A reported reference: name, module nesting and resolved range. -/
structure Reference where
  name : String
  module_nesting : List String
  location : Range
deriving DecidableEq

/-- Embedding of `Reference::possible_fully_qualified_constants`: each
nesting level joined with the name as `"<nesting>::<name>"`. -/
def Reference.possible_fully_qualified_constants (r : Reference) : List String :=
  r.module_nesting.map (fun nesting => nesting ++ "::" ++ r.name)

/-- Embedding of `extract_from_contents`: when no syntax tree is produced
the result is the empty list; otherwise the collector visits the tree,
each collected reference's byte offsets are resolved through `lookup`,
and a reference is kept only when none of its possible fully qualified
constants is a fully qualified name of a same-file definition. -/
def extract_from_contents (lookup : Nat → Nat × Nat)
    (ast_option : Option RNode) : Option (List Reference) :=
  match ast_option with
  | none => some []
  | some ast =>
    (visitNode ⟨[], [], []⟩ ast).map fun collector =>
      let def_set : List String :=
        collector.definitions.map (fun d => d.fully_qualified_name)
      ((collector.references.map fun parsed_reference =>
        let s := lookup parsed_reference.location.begin
        let e := lookup parsed_reference.location.end_
        (⟨parsed_reference.name, parsed_reference.module_nesting,
          ⟨s.1, s.2, e.1, e.2⟩⟩ : Reference)).filter
        fun r => !(r.possible_fully_qualified_constants.any
          fun constant_name => def_set.contains constant_name))

/-- Claim C8: when the parser produces no syntax tree, extraction returns
the empty reference list (a normal result, not a panic). -/
theorem c8_no_ast_yields_empty (lookup : Nat → Nat × Nat) :
    extract_from_contents lookup none = some [] := rfl

/-- Claim C3, behaviour of the code at the failing input: the AST of
`"class Foo\nend"` (a `Class` node whose name is the `Const` `Foo` at
bytes 6-9) yields *no* references — `on_class` never visits the class
name expression (`self.visit(&node.name)` is commented out in the
source), contradicting the repository's own `test_class_definition`,
which expects exactly one `Foo` reference at the class-name location. -/
theorem c3_class_name_not_referenced (lookup : Nat → Nat × Nat) :
    extract_from_contents lookup
      (some (RNode.class_ (RNode.const none "Foo" ⟨6, 9⟩) none none ⟨0, 13⟩))
      = some [] := rfl

/-- Claim C5: on a class node whose declared name is unresolvable
(`fetch_const_name` returns the `Metaprogramming` error), the visitor
returns the collector unchanged — the superclass and body are not
visited, no definitions or references are collected from inside, and the
traversal continues normally (no panic). -/
theorem c5_unresolvable_class_skipped (c : ReferenceCollector)
    (name : RNode) (superclass body : Option RNode) (expression_l : Location)
    (h : fetch_const_name name = ConstName.metaprogramming) :
    visitNode c (RNode.class_ name superclass body expression_l) = some c := by
  unfold visitNode
  rw [h]

/-- Witness for claim C5: a class named by a method call (`Send` node),
with a superclass and a body that would otherwise contribute a reference,
leaves the collector untouched. -/
theorem c5_unresolvable_class_skipped_witness :
    fetch_const_name (RNode.send [] ⟨0, 5⟩) = ConstName.metaprogramming ∧
    visitNode ⟨[], [], []⟩
      (RNode.class_ (RNode.send [] ⟨0, 5⟩)
        (some (RNode.const none "Base" ⟨8, 12⟩))
        (some (RNode.const none "Inner" ⟨14, 19⟩)) ⟨0, 23⟩)
      = some ⟨[], [], []⟩ :=
  ⟨rfl, c5_unresolvable_class_skipped ⟨[], [], []⟩ (RNode.send [] ⟨0, 5⟩)
    (some (RNode.const none "Base" ⟨8, 12⟩))
    (some (RNode.const none "Inner" ⟨14, 19⟩)) ⟨0, 23⟩ rfl⟩

/-- Claim C10: visiting a constant-assignment node never visits the
assigned value, so the references are unchanged whether or not the
assigned name resolves; when it resolves, exactly the one definition
`current_namespaces ++ [name]` joined with `::` is recorded, and the
namespace stack is unchanged. -/
theorem c10_casgn_value_not_visited (c : ReferenceCollector)
    (scope : Option RNode) (name : String) (value : Option RNode)
    (expression_l : Location) (c' : ReferenceCollector)
    (h : visitNode c (RNode.casgn scope name value expression_l) = some c') :
    c'.references = c.references ∧
    c'.current_namespaces = c.current_namespaces ∧
    ((∃ n, fetch_casgn_name scope name = ConstName.resolved n ∧
        c'.definitions = c.definitions ++
          [⟨joinDoubleColon (c.current_namespaces ++ [n]), expression_l⟩]) ∨
      (fetch_casgn_name scope name = ConstName.metaprogramming ∧
        c'.definitions = c.definitions)) := by
  unfold visitNode at h
  cases hf : fetch_casgn_name scope name with
  | resolved n =>
    rw [hf] at h
    cases h
    exact ⟨rfl, rfl, Or.inl ⟨n, rfl, rfl⟩⟩
  | metaprogramming =>
    rw [hf] at h
    cases h
    exact ⟨rfl, rfl, Or.inr ⟨rfl, rfl⟩⟩
  | unhandled =>
    rw [hf] at h
    cases h

/-- Witness for claim C10: `FOO = Bar` inside namespace `M` — the `Bar`
on the right-hand side is never collected, and the definition `M::FOO` is
recorded. -/
theorem c10_casgn_value_not_visited_witness :
    visitNode ⟨[], [], ["M"]⟩
        (RNode.casgn none "FOO" (some (RNode.const none "Bar" ⟨6, 9⟩)) ⟨0, 9⟩)
      = some ⟨[], [(⟨"M::FOO", ⟨0, 9⟩⟩ : ParsedDefinition)], ["M"]⟩ ∧
    ([] : List ParsedReference) = [] ∧
    (["M"] : List String) = ["M"] ∧
    ((∃ n, fetch_casgn_name none "FOO" = ConstName.resolved n ∧
        [(⟨"M::FOO", ⟨0, 9⟩⟩ : ParsedDefinition)] = [] ++
          [⟨joinDoubleColon (["M"] ++ [n]), ⟨0, 9⟩⟩]) ∨
      (fetch_casgn_name none "FOO" = ConstName.metaprogramming ∧
        [(⟨"M::FOO", ⟨0, 9⟩⟩ : ParsedDefinition)] = [])) :=
  ⟨rfl, c10_casgn_value_not_visited ⟨[], [], ["M"]⟩ none "FOO"
    (some (RNode.const none "Bar" ⟨6, 9⟩)) ⟨0, 9⟩
    ⟨[], [(⟨"M::FOO", ⟨0, 9⟩⟩ : ParsedDefinition)], ["M"]⟩ rfl⟩

/-- Claim C2: in the post-pass over one file, a collected reference is
discarded if and only if some level `L` of its `module_nesting` makes
`L ++ "::" ++ name` the fully qualified name of a same-file definition;
in particular a reference with empty `module_nesting` is never
discarded. -/
theorem c2_local_definition_filter (lookup : Nat → Nat × Nat) (ast : RNode)
    (collector : ReferenceCollector) (out : List Reference)
    (hv : visitNode ⟨[], [], []⟩ ast = some collector)
    (he : extract_from_contents lookup (some ast) = some out) :
    ∀ r ∈ collector.references.map (fun parsed_reference =>
        (⟨parsed_reference.name, parsed_reference.module_nesting,
          ⟨(lookup parsed_reference.location.begin).1,
           (lookup parsed_reference.location.begin).2,
           (lookup parsed_reference.location.end_).1,
           (lookup parsed_reference.location.end_).2⟩⟩ : Reference)),
      (r ∉ out ↔ ∃ level ∈ r.module_nesting,
        (level ++ "::" ++ r.name) ∈
          collector.definitions.map (fun d => d.fully_qualified_name)) ∧
      (r.module_nesting = [] → r ∈ out) := by
  simp only [extract_from_contents] at he
  rw [hv] at he
  simp only [Option.map_some'] at he
  have hout : out = (collector.references.map (fun parsed_reference =>
      (⟨parsed_reference.name, parsed_reference.module_nesting,
        ⟨(lookup parsed_reference.location.begin).1,
         (lookup parsed_reference.location.begin).2,
         (lookup parsed_reference.location.end_).1,
         (lookup parsed_reference.location.end_).2⟩⟩ : Reference))).filter
      (fun r => !(r.possible_fully_qualified_constants.any
        fun constant_name =>
          (collector.definitions.map
            (fun d => d.fully_qualified_name)).contains constant_name)) :=
    (Option.some.inj he).symm
  have hpred : ∀ (r : Reference),
      ((!(r.possible_fully_qualified_constants.any fun constant_name =>
          (collector.definitions.map
            (fun d => d.fully_qualified_name)).contains constant_name)) = true
        ↔ ¬ ∃ level ∈ r.module_nesting, (level ++ "::" ++ r.name) ∈
            collector.definitions.map (fun d => d.fully_qualified_name)) := by
    intro r
    simp [Reference.possible_fully_qualified_constants, List.any_eq_true]
  intro r hr
  have hiff := hpred r
  refine ⟨?_, ?_⟩
  · rw [hout]
    rw [List.mem_filter]
    constructor
    · intro hnot
      by_contra hno
      exact hnot ⟨hr, hiff.mpr hno⟩
    · intro hex hmem
      exact hiff.mp hmem.2 hex
  · intro hempty
    rw [hout, List.mem_filter]
    refine ⟨hr, hiff.mpr ?_⟩
    simp [hempty]

/-- Witness for claim C2: for the file `module M; BAR = 1; BAR; end` the
collected `BAR` reference (nesting `["M"]`) is discarded because
`M::BAR` is a same-file definition; the filter iff holds at it. -/
theorem c2_local_definition_filter_witness :
    ((⟨"BAR", ["M"], ⟨1, 23, 1, 26⟩⟩ : Reference) ∉ ([] : List Reference) ↔
      ∃ level ∈ (["M"] : List String),
        (level ++ "::" ++ "BAR") ∈
          ([(⟨"M::BAR", ⟨12, 19⟩⟩ : ParsedDefinition)].map
            (fun d => d.fully_qualified_name))) ∧
    ((["M"] : List String) = [] →
      (⟨"BAR", ["M"], ⟨1, 23, 1, 26⟩⟩ : Reference) ∈ ([] : List Reference)) :=
  c2_local_definition_filter (fun n => (1, n + 1))
    (RNode.module_ (RNode.const none "M" ⟨7, 8⟩)
      (some (RNode.other
        [RNode.casgn none "BAR" none ⟨12, 19⟩,
         RNode.const none "BAR" ⟨22, 25⟩] ⟨12, 25⟩))
      ⟨0, 29⟩)
    ⟨[⟨"BAR", ["M"], ⟨22, 25⟩⟩], [⟨"M::BAR", ⟨12, 19⟩⟩], []⟩
    [] rfl rfl ⟨"BAR", ["M"], ⟨1, 23, 1, 26⟩⟩ (by decide)

/-! ## Structural lemmas about the visitor

`visit_preserves_namespaces`: a successful visit leaves the namespace
stack as it found it (every push is matched by a pop).

`visit_decompose`: a visit starting from any collector equals the visit
starting from an empty collector with the same namespace stack, its
collected references and definitions appended to the initial ones. -/

/-- Append the output of a fresh run (`d`) onto an initial collector. -/
def mergeInto (c d : ReferenceCollector) : ReferenceCollector :=
  ⟨c.references ++ d.references, c.definitions ++ d.definitions,
    d.current_namespaces⟩

mutual

/-- A successful visit restores the namespace stack. -/
theorem visit_preserves_namespaces (n : RNode) :
    ∀ c c', visitNode c n = some c' →
      c'.current_namespaces = c.current_namespaces := by
  cases n with
  | const scope name expression_l =>
    intro c c' h
    unfold visitNode at h
    cases hf : fetch_const_const_name scope name <;> rw [hf] at h <;>
      cases h <;> rfl
  | cbase expression_l => intro c c' h; cases h; rfl
  | send children expression_l =>
    intro c c' h
    exact visitList_preserves_namespaces children c c' h
  | lvar expression_l => intro c c' h; cases h; rfl
  | ivar expression_l => intro c c' h; cases h; rfl
  | self_ expression_l => intro c c' h; cases h; rfl
  | class_ name superclass body expression_l =>
    intro c c' h
    unfold visitNode at h
    cases hf : fetch_const_name name <;> rw [hf] at h
    · obtain ⟨s1, hs, h2⟩ := Option.bind_eq_some.mp h
      obtain ⟨s4, hb, hc⟩ := Option.map_eq_some'.mp h2
      have hn1 := visitOpt_preserves_namespaces superclass c s1 hs
      have hn4 := visitOpt_preserves_namespaces body _ s4 hb
      rw [← hc]
      simp only [hn4, hn1] at *
      simp [hn4, hn1, List.dropLast_concat]
    · cases h; rfl
    · cases h
  | module_ name body expression_l =>
    intro c c' h
    unfold visitNode at h
    cases hf : fetch_const_name name <;> rw [hf] at h
    · obtain ⟨s2, hb, hc⟩ := Option.map_eq_some'.mp h
      have hn2 := visitOpt_preserves_namespaces body _ s2 hb
      rw [← hc]
      simp [hn2, List.dropLast_concat]
    · cases h
    · cases h
  | casgn scope name value expression_l =>
    intro c c' h
    unfold visitNode at h
    cases hf : fetch_casgn_name scope name <;> rw [hf] at h <;>
      cases h <;> rfl
  | other children expression_l =>
    intro c c' h
    exact visitList_preserves_namespaces children c c' h

/-- A successful visit of an optional child restores the namespace
stack. -/
theorem visitOpt_preserves_namespaces (o : Option RNode) :
    ∀ c c', visitOpt c o = some c' →
      c'.current_namespaces = c.current_namespaces := by
  cases o with
  | none => intro c c' h; cases h; rfl
  | some n => intro c c' h; exact visit_preserves_namespaces n c c' h

/-- A successful visit of a child list restores the namespace stack. -/
theorem visitList_preserves_namespaces (l : List RNode) :
    ∀ c c', visitList c l = some c' →
      c'.current_namespaces = c.current_namespaces := by
  cases l with
  | nil => intro c c' h; cases h; rfl
  | cons n rest =>
    intro c c' h
    unfold visitList at h
    obtain ⟨cm, hn, h2⟩ := Option.bind_eq_some.mp h
    have ha := visit_preserves_namespaces n c cm hn
    have hb := visitList_preserves_namespaces rest cm c' h2
    rw [hb, ha]

end

/-! ## The visitor's effect as a pure function of the namespace stack

`runNode ns n` computes the references and definitions contributed by
visiting `n` with namespace stack `ns` (in collection order), `none`
modelling a panic. `visitNode_run` proves the visitor equal to its
effect appended onto the incoming collector — in particular the final
namespace stack always equals the incoming one. -/

mutual

/-- References and definitions contributed by visiting one node under
stack `ns`. -/
def runNode (ns : List String) :
    RNode → Option (List ParsedReference × List ParsedDefinition)
  | RNode.const scope name expression_l =>
    match fetch_const_const_name scope name with
    | ConstName.resolved n =>
      some ([⟨n, calculate_module_nesting ns, expression_l⟩], [])
    | ConstName.metaprogramming => some ([], [])
    | ConstName.unhandled => none
  | RNode.cbase _ => some ([], [])
  | RNode.send children _ => runList ns children
  | RNode.lvar _ => some ([], [])
  | RNode.ivar _ => some ([], [])
  | RNode.self_ _ => some ([], [])
  | RNode.class_ name superclass body expression_l =>
    match fetch_const_name name with
    | ConstName.unhandled => none
    | ConstName.metaprogramming => some ([], [])
    | ConstName.resolved namespace_ =>
      (runOpt ns superclass).bind fun p1 =>
        (runOpt (ns ++ [namespace_]) body).map fun p2 =>
          (p1.1 ++ p2.1,
            p1.2 ++ [⟨joinDoubleColon (ns ++ [namespace_]), expression_l⟩]
              ++ p2.2)
  | RNode.module_ name body _ =>
    match fetch_const_name name with
    | ConstName.resolved namespace_ => runOpt (ns ++ [namespace_]) body
    | _ => none
  | RNode.casgn scope name _value expression_l =>
    match fetch_casgn_name scope name with
    | ConstName.resolved n =>
      some ([], [⟨joinDoubleColon (ns ++ [n]), expression_l⟩])
    | ConstName.metaprogramming => some ([], [])
    | ConstName.unhandled => none
  | RNode.other children _ => runList ns children

/-- Effect of visiting an optional child. -/
def runOpt (ns : List String) :
    Option RNode → Option (List ParsedReference × List ParsedDefinition)
  | none => some ([], [])
  | some n => runNode ns n

/-- Effect of visiting children in order. -/
def runList (ns : List String) :
    List RNode → Option (List ParsedReference × List ParsedDefinition)
  | [] => some ([], [])
  | n :: rest =>
    (runNode ns n).bind fun p1 =>
      (runList ns rest).map fun p2 => (p1.1 ++ p2.1, p1.2 ++ p2.2)

end

mutual

/-- The visitor equals its pure effect appended onto the incoming
collector; the final namespace stack equals the incoming one. -/
theorem visitNode_run (n : RNode) :
    ∀ c, visitNode c n = (runNode c.current_namespaces n).map
      (fun p => (⟨c.references ++ p.1, c.definitions ++ p.2,
        c.current_namespaces⟩ : ReferenceCollector)) := by
  cases n with
  | const scope name expression_l =>
    intro c
    cases hf : fetch_const_const_name scope name <;>
      simp [visitNode, runNode, hf]
  | cbase expression_l => intro c; simp [visitNode, runNode]
  | send children expression_l =>
    intro c
    simp only [visitNode, runNode]
    exact visitList_run children c
  | lvar expression_l => intro c; simp [visitNode, runNode]
  | ivar expression_l => intro c; simp [visitNode, runNode]
  | self_ expression_l => intro c; simp [visitNode, runNode]
  | class_ name superclass body expression_l =>
    intro c
    cases hf : fetch_const_name name with
    | unhandled => simp [visitNode, runNode, hf]
    | metaprogramming => simp [visitNode, runNode, hf]
    | resolved namespace_ =>
      simp only [visitNode, runNode, hf]
      rw [visitOpt_run superclass c]
      cases h1 : runOpt c.current_namespaces superclass with
      | none => simp
      | some p1 =>
        simp only [Option.map_some', Option.some_bind]
        rw [visitOpt_run body]
        simp only []
        cases h2 : runOpt (c.current_namespaces ++ [namespace_]) body with
        | none => simp
        | some p2 =>
          simp [List.dropLast_concat, List.append_assoc]
  | module_ name body expression_l =>
    intro c
    cases hf : fetch_const_name name with
    | unhandled => simp [visitNode, runNode, hf]
    | metaprogramming => simp [visitNode, runNode, hf]
    | resolved namespace_ =>
      simp only [visitNode, runNode, hf]
      rw [visitOpt_run body]
      simp only []
      cases h2 : runOpt (c.current_namespaces ++ [namespace_]) body with
      | none => simp
      | some p2 =>
        simp [List.dropLast_concat, List.append_assoc]
  | casgn scope name value expression_l =>
    intro c
    cases hf : fetch_casgn_name scope name <;>
      simp [visitNode, runNode, hf]
  | other children expression_l =>
    intro c
    simp only [visitNode, runNode]
    exact visitList_run children c

/-- `visitNode_run` for an optional child. -/
theorem visitOpt_run (o : Option RNode) :
    ∀ c, visitOpt c o = (runOpt c.current_namespaces o).map
      (fun p => (⟨c.references ++ p.1, c.definitions ++ p.2,
        c.current_namespaces⟩ : ReferenceCollector)) := by
  cases o with
  | none => intro c; simp [visitOpt, runOpt]
  | some n => intro c; simp only [visitOpt, runOpt]; exact visitNode_run n c

/-- `visitNode_run` for a child list. -/
theorem visitList_run (l : List RNode) :
    ∀ c, visitList c l = (runList c.current_namespaces l).map
      (fun p => (⟨c.references ++ p.1, c.definitions ++ p.2,
        c.current_namespaces⟩ : ReferenceCollector)) := by
  cases l with
  | nil => intro c; simp [visitList, runList]
  | cons n rest =>
    intro c
    simp only [visitList, runList]
    rw [visitNode_run n c]
    cases h1 : runNode c.current_namespaces n with
    | none => simp
    | some p1 =>
      simp only [Option.map_some', Option.some_bind]
      rw [visitList_run rest]
      simp only []
      cases h2 : runList c.current_namespaces rest with
      | none => simp
      | some p2 =>
        simp [List.append_assoc]

end

/-- Claim C6: for a class node with a resolvable name and a superclass
expression, the superclass expression is visited under the *enclosing*
namespace stack (`c.current_namespaces`, the class's own name not yet
pushed), the definition is recorded next, the body is visited under the
stack with the class's name pushed, and the stack is restored on exit. -/
theorem c6_superclass_before_push (c : ReferenceCollector)
    (name superclass : RNode) (body : Option RNode) (expression_l : Location)
    (namespace_ : String)
    (hname : fetch_const_name name = ConstName.resolved namespace_) :
    visitNode c (RNode.class_ name (some superclass) body expression_l) =
      (runNode c.current_namespaces superclass).bind fun p1 =>
        (runOpt (c.current_namespaces ++ [namespace_]) body).map fun p2 =>
          (⟨c.references ++ p1.1 ++ p2.1,
            c.definitions ++ p1.2 ++
              [⟨joinDoubleColon (c.current_namespaces ++ [namespace_]),
                expression_l⟩] ++ p2.2,
            c.current_namespaces⟩ : ReferenceCollector) := by
  rw [visitNode_run]
  simp only [runNode, hname, runOpt]
  cases h1 : runNode c.current_namespaces superclass with
  | none => simp
  | some p1 =>
    simp only [Option.map_some', Option.some_bind]
    cases h2 : runOpt (c.current_namespaces ++ [namespace_]) body with
    | none => simp
    | some p2 => simp [List.append_assoc]

/-- Witness for claim C6: `class Outer; class Foo < Base; Inner; end; end`
seen from inside `Outer` — the `Base` reference is collected under the
enclosing stack `["Outer"]` and `Inner` under `["Outer", "Foo"]`. -/
theorem c6_superclass_before_push_witness :
    fetch_const_name (RNode.const none "Foo" ⟨6, 9⟩) =
      ConstName.resolved "Foo" ∧
    visitNode ⟨[], [], ["Outer"]⟩
        (RNode.class_ (RNode.const none "Foo" ⟨6, 9⟩)
          (some (RNode.const none "Base" ⟨12, 16⟩))
          (some (RNode.const none "Inner" ⟨19, 24⟩)) ⟨0, 28⟩) =
      (runNode ["Outer"] (RNode.const none "Base" ⟨12, 16⟩)).bind fun p1 =>
        (runOpt (["Outer"] ++ ["Foo"])
            (some (RNode.const none "Inner" ⟨19, 24⟩))).map fun p2 =>
          (⟨[] ++ p1.1 ++ p2.1,
            [] ++ p1.2 ++
              [⟨joinDoubleColon (["Outer"] ++ ["Foo"]), ⟨0, 28⟩⟩] ++ p2.2,
            ["Outer"]⟩ : ReferenceCollector) :=
  ⟨rfl, c6_superclass_before_push ⟨[], [], ["Outer"]⟩
    (RNode.const none "Foo" ⟨6, 9⟩) (RNode.const none "Base" ⟨12, 16⟩)
    (some (RNode.const none "Inner" ⟨19, 24⟩)) ⟨0, 28⟩ "Foo" rfl⟩

/-! ## The pack ownership index (src/packs/pack_set.rs)

`Pack` itself lives in `pack.rs`, outside the given sources; only its
`name`, `yml` and recorded-violation fields are read here, so it is
modelled from the spec (§3): a name, a configuration-file path, and an
opaque set of recorded violations (violation identifiers kept as
strings). `HashMap` becomes an association list whose insert prepends
(lookup finds the most recent binding); `HashSet<ViolationIdentifier>`
becomes a duplicate-free list built by conditional insert. -/

/-- Modelled from the spec: a pack — name, configuration-file path, and
its previously recorded violations (opaque identifiers). -/
structure Pack where
  name : String
  yml : String
  violations : List String
deriving DecidableEq

/-- Lookup in an association list built with prepending insert (the most
recent binding wins, as for `HashMap` insert-then-get). -/
def hashGet {β : Type} (m : List (String × β)) (k : String) : Option β :=
  (m.find? (fun e => e.1 == k)).map (fun e => e.2)

/-- `HashSet` insert: add the element unless already present. -/
def setInsert (s : List String) (v : String) : List String :=
  if v ∈ s then s else s ++ [v]

/-- Embedding of Rust `str::trim_end_matches('/')`: remove every trailing
`'/'` character. -/
def trim_end_matches_slash (s : String) : String :=
  String.mk ((s.data.reverse.dropWhile (fun ch => ch = '/')).reverse)

/-- Lexicographic `≤` on character data, embedding Rust's `String::cmp`
(byte-wise lexicographic comparison; UTF-8 byte order coincides with code
point order). -/
def str_le_b : List Char → List Char → Bool
  | [], _ => true
  | _ :: _, [] => false
  | a :: as, b :: bs =>
    if a.toNat < b.toNat then true
    else if b.toNat < a.toNat then false
    else str_le_b as bs

/-- The comparator of `PackSet::build`'s `sorted_by`: name length
descending, then name ascending. -/
def pack_order (packa packb : Pack) : Prop :=
  packb.name.length < packa.name.length ∨
    (packa.name.length = packb.name.length ∧
      str_le_b packa.name.data packb.name.data = true)

instance : DecidableRel pack_order := fun a b => by
  unfold pack_order; exact inferInstance

/-- Embedding of the `PackSet` struct: sorted pack list, name index,
file-to-owner index, and the aggregated recorded violations. -/
structure PackSet where
  packs : List Pack
  indexed_packs : List (String × Pack)
  owning_pack_name_for_file : List (String × String)
  all_violations : List String
deriving DecidableEq

/-- One step of `PackSet::build`'s owner-resolution loop: resolve the
file's configuration path through the yml index and record the owner
name when found, else leave the file unowned. -/
def owning_step (indexed_packs_by_yml : List (String × String))
    (m : List (String × String)) (fy : String × String) :
    List (String × String) :=
  match hashGet indexed_packs_by_yml fy.2 with
  | some pack_name => (fy.1, pack_name) :: m
  | none => m

/-- Embedding of `PackSet::build`: sort the packs (length descending then
name ascending), index them by name and by configuration-file path,
aggregate recorded violations, resolve each file's configuration path to
an owner name (files with unrecognized configuration paths are left
unowned), and panic (`none`) when no pack is named `"."`. -/
def PackSet.build (packs : List Pack)
    (owning_package_yml_for_file : List (String × String)) : Option PackSet :=
  let packs : List Pack := List.insertionSort pack_order packs
  let indexed_packs_by_name : List (String × Pack) :=
    packs.foldl (fun m pack => (pack.name, pack) :: m) []
  let indexed_packs_by_yml : List (String × String) :=
    packs.foldl (fun m pack => (pack.yml, pack.name) :: m) []
  let all_violations : List String :=
    packs.foldl (fun s pack => pack.violations.foldl setInsert s) []
  let owning_pack_name_for_file : List (String × String) :=
    owning_package_yml_for_file.foldl (owning_step indexed_packs_by_yml) []
  let indexed_packs := indexed_packs_by_name
  match hashGet indexed_packs "." with
  | none => none
  | some _ =>
    some ⟨packs, indexed_packs, owning_pack_name_for_file, all_violations⟩

/-- Embedding of `PackSet::for_pack`: trim trailing `'/'` from the name,
then look it up; an unknown name is the recoverable error result. -/
def PackSet.for_pack (ps : PackSet) (pack_name : String) :
    Except String Pack :=
  let pack_name := trim_end_matches_slash pack_name
  match hashGet ps.indexed_packs pack_name with
  | some pack => Except.ok pack
  | none => Except.error "No pack found."

/-- Embedding of `PackSet::for_file`: no recorded owner yields
`some none`; a recorded owner whose name resolves yields the pack; a
recorded owner whose name fails to resolve is the fatal branch
(`none`, a panic). -/
def PackSet.for_file (ps : PackSet) (absolute_file_path : String) :
    Option (Option Pack) :=
  match hashGet ps.owning_pack_name_for_file absolute_file_path with
  | none => some none
  | some pack_name =>
    match ps.for_pack pack_name with
    | Except.ok pack => some (some pack)
    | Except.error _ => none

/-- Embedding of `PackSet::root_pack`: look up `"."`; `none` is the
"should have been caught at build time" panic. -/
def PackSet.root_pack (ps : PackSet) : Option Pack :=
  hashGet ps.indexed_packs "."

/-! ## Lookup lemmas for the fold-built indices -/

theorem hashGet_cons {β : Type} (k' : String) (v : β)
    (m : List (String × β)) (k : String) :
    hashGet ((k', v) :: m) k = if k' == k then some v else hashGet m k := by
  unfold hashGet
  rw [List.find?_cons]
  cases h : (k' == k) with
  | true => simp [h]
  | false => simp [h]

theorem hashGet_index_foldl {β γ : Type} (key : γ → String) (val : γ → β)
    (l : List γ) :
    ∀ (init : List (String × β)) (k : String),
      hashGet (l.foldl (fun m a => (key a, val a) :: m) init) k =
        match l.reverse.find? (fun a => key a == k) with
        | some a => some (val a)
        | none => hashGet init k := by
  induction l with
  | nil => intro init k; rfl
  | cons a t ih =>
    intro init k
    simp only [List.foldl_cons, List.reverse_cons]
    rw [ih, List.find?_append]
    cases hf : t.reverse.find? (fun a => key a == k) with
    | some q => simp [Option.or]
    | none =>
      rw [hashGet_cons]
      cases hk : (key a == k) with
      | true => simp [Option.or, List.find?_cons, hk]
      | false => simp [Option.or, List.find?_cons, hk]

theorem hashGet_name_index (l : List Pack) (init : List (String × Pack))
    (k : String) :
    hashGet (l.foldl (fun m pack => (pack.name, pack) :: m) init) k =
      match l.reverse.find? (fun pack => pack.name == k) with
      | some q => some q
      | none => hashGet init k := by
  rw [hashGet_index_foldl Pack.name (fun pack => pack)]
  cases hf : l.reverse.find? (fun pack => pack.name == k) <;> rfl

theorem hashGet_yml_index (l : List Pack) (init : List (String × String))
    (k : String) :
    hashGet (l.foldl (fun m pack => (pack.yml, pack.name) :: m) init) k =
      match l.reverse.find? (fun pack => pack.yml == k) with
      | some q => some q.name
      | none => hashGet init k := by
  rw [hashGet_index_foldl Pack.yml Pack.name]
  cases hf : l.reverse.find? (fun pack => pack.yml == k) <;> rfl

theorem yml_index_value (l : List Pack) (yml nm : String)
    (h : hashGet (l.foldl (fun m pack => (pack.yml, pack.name) :: m) []) yml
      = some nm) :
    ∃ q ∈ l, q.name = nm := by
  rw [hashGet_yml_index] at h
  cases hf : l.reverse.find? (fun pack => pack.yml == yml) with
  | none => rw [hf] at h; simp [hashGet] at h
  | some q =>
    rw [hf] at h
    exact ⟨q, List.mem_reverse.mp (List.mem_of_find?_eq_some hf),
      Option.some.inj h⟩

theorem name_index_isSome (l : List Pack) (k : String) (q : Pack)
    (hq : q ∈ l) (hk : q.name = k) :
    ∃ r, hashGet (l.foldl (fun m pack => (pack.name, pack) :: m) []) k
      = some r := by
  rw [hashGet_name_index]
  cases hf : l.reverse.find? (fun pack => pack.name == k) with
  | some r => exact ⟨r, rfl⟩
  | none =>
    exact absurd (by simp [hk] : (fun pack => pack.name == k) q = true)
      (by rw [List.find?_eq_none] at hf
          exact hf q (List.mem_reverse.mpr hq))

theorem owning_fold_values (byYml : List (String × String))
    (pairs : List (String × String)) :
    ∀ (init : List (String × String)) (f nm : String),
      hashGet (pairs.foldl (owning_step byYml) init) f = some nm →
      (∃ yml, hashGet byYml yml = some nm) ∨ hashGet init f = some nm := by
  induction pairs with
  | nil => intro init f nm h; exact Or.inr h
  | cons fy t ih =>
    intro init f nm h
    simp only [List.foldl_cons] at h
    unfold owning_step at h
    cases hy : hashGet byYml fy.2 with
    | none => rw [hy] at h; exact ih _ f nm h
    | some pn =>
      rw [hy] at h
      rcases ih _ f nm h with h1 | h2
      · exact Or.inl h1
      · rw [hashGet_cons] at h2
        by_cases hbk : (fy.1 == f) = true
        · rw [if_pos hbk] at h2
          exact Or.inl ⟨fy.2, by rw [hy, Option.some.inj h2]⟩
        · rw [if_neg hbk] at h2
          exact Or.inr h2

theorem trim_end_matches_slash_append (s : String) :
    trim_end_matches_slash (s ++ "/") = trim_end_matches_slash s := by
  unfold trim_end_matches_slash
  rw [String.data_append]
  have h : ("/" : String).data = ['/'] := rfl
  rw [h, List.reverse_append]
  simp [List.dropWhile_cons]

/-- Claim C4, as stated, is false: `trim_end_matches('/')` removes *all*
trailing separators, not exactly one, so for a pack set containing pack
`"a"`, `for_pack("a//")` still finds pack `"a"` instead of the
recoverable not-found result. -/
theorem c4_for_pack_counterexample :
    (PackSet.build
        [⟨".", "package.yml", []⟩, ⟨"a", "a/package.yml", []⟩] []).map
      (fun ps => ps.for_pack "a//") =
      some (Except.ok (⟨"a", "a/package.yml", []⟩ : Pack)) ∧
    (PackSet.build
        [⟨".", "package.yml", []⟩, ⟨"a", "a/package.yml", []⟩] []).map
      (fun ps => ps.for_pack "a//") ≠
      some (Except.error "No pack found.") := by
  refine ⟨rfl, ?_⟩
  intro h
  rw [(rfl : (PackSet.build
      [⟨".", "package.yml", []⟩, ⟨"a", "a/package.yml", []⟩] []).map
      (fun ps => ps.for_pack "a//") =
      some (Except.ok (⟨"a", "a/package.yml", []⟩ : Pack)))] at h
  exact Except.noConfusion (Option.some.inj h)

/-- Claim C4 (amended): `for_pack` removes *all* trailing `'/'`
separators before the name-index lookup — appending a `'/'` to any
argument never changes the result; in particular, for a pack set
containing pack `"a"`, both `for_pack("a/")` and `for_pack("a//")`
return pack `"a"`. -/
theorem c4_for_pack_trailing_separators_amended :
    (∀ (ps : PackSet) (s : String),
      ps.for_pack (s ++ "/") = ps.for_pack s) ∧
    (PackSet.build
        [⟨".", "package.yml", []⟩, ⟨"a", "a/package.yml", []⟩] []).map
      (fun ps => ps.for_pack "a/") =
      some (Except.ok (⟨"a", "a/package.yml", []⟩ : Pack)) ∧
    (PackSet.build
        [⟨".", "package.yml", []⟩, ⟨"a", "a/package.yml", []⟩] []).map
      (fun ps => ps.for_pack "a//") =
      some (Except.ok (⟨"a", "a/package.yml", []⟩ : Pack)) := by
  refine ⟨?_, rfl, rfl⟩
  intro ps s
  unfold PackSet.for_pack
  rw [trim_end_matches_slash_append]

theorem build_fields (packs : List Pack) (owning : List (String × String))
    (ps : PackSet) (hb : PackSet.build packs owning = some ps) :
    ps.indexed_packs = (List.insertionSort pack_order packs).foldl
      (fun m pack => (pack.name, pack) :: m) [] ∧
    ps.owning_pack_name_for_file = owning.foldl
      (owning_step ((List.insertionSort pack_order packs).foldl
        (fun m pack => (pack.yml, pack.name) :: m) [])) [] := by
  simp only [PackSet.build] at hb
  cases hf : hashGet ((List.insertionSort pack_order packs).foldl
      (fun m pack => (pack.name, pack) :: m) []) "." with
  | none => rw [hf] at hb; cases hb
  | some q => rw [hf] at hb; cases hb; exact ⟨rfl, rfl⟩

theorem build_root_pack (packs : List Pack) (owning : List (String × String))
    (ps : PackSet) (hb : PackSet.build packs owning = some ps) :
    ps.root_pack = hashGet ((List.insertionSort pack_order packs).foldl
      (fun m pack => (pack.name, pack) :: m) []) "." := by
  simp only [PackSet.build] at hb
  cases hf : hashGet ((List.insertionSort pack_order packs).foldl
      (fun m pack => (pack.name, pack) :: m) []) "." with
  | none => rw [hf] at hb; cases hb
  | some q => rw [hf] at hb; cases hb; exact hf

/-- Claim C7: `PackSet::build` fails fatally exactly when no input pack
is named `"."`; when a `"."`-named pack is present (names being unique,
as they are in a pack set), the build succeeds and `root_pack` returns
that pack. -/
theorem c7_root_pack_required (packs : List Pack)
    (owning : List (String × String)) :
    (PackSet.build packs owning = none ↔ ¬ ∃ p ∈ packs, p.name = ".") ∧
    (∀ p ∈ packs, p.name = "." → (packs.map Pack.name).Nodup →
      ∃ ps, PackSet.build packs owning = some ps ∧ ps.root_pack = some p) := by
  constructor
  · simp only [PackSet.build]
    rw [hashGet_name_index]
    cases hf : (List.insertionSort pack_order packs).reverse.find?
        (fun pack => pack.name == ".") with
    | some q =>
      constructor
      · intro h; exact Option.noConfusion h
      · intro hno
        exfalso
        apply hno
        refine ⟨q, ?_, ?_⟩
        · exact (List.mem_insertionSort pack_order).mp
            (List.mem_reverse.mp (List.mem_of_find?_eq_some hf))
        · simpa using List.find?_some hf
    | none =>
      constructor
      · rintro - ⟨p, hp, hname⟩
        rw [List.find?_eq_none] at hf
        exact hf p (List.mem_reverse.mpr
          ((List.mem_insertionSort pack_order).mpr hp)) (by simp [hname])
      · intro _; rfl
  · intro p hp hname hnodup
    have hsmem : p ∈ List.insertionSort pack_order packs :=
      (List.mem_insertionSort pack_order).mpr hp
    have hnodup' : ((List.insertionSort pack_order packs).map Pack.name).Nodup :=
      (((List.perm_insertionSort pack_order packs).map Pack.name).nodup_iff).mpr
        hnodup
    have hfind : (List.insertionSort pack_order packs).reverse.find?
        (fun pack => pack.name == ".") = some p := by
      have hmemrev : p ∈ (List.insertionSort pack_order packs).reverse :=
        List.mem_reverse.mpr hsmem
      have hsome : ((List.insertionSort pack_order packs).reverse.find?
          (fun pack => pack.name == ".")).isSome :=
        List.find?_isSome.mpr ⟨p, hmemrev, by simp [hname]⟩
      obtain ⟨q, hq⟩ := Option.isSome_iff_exists.mp hsome
      have hqmem : q ∈ List.insertionSort pack_order packs :=
        List.mem_reverse.mp (List.mem_of_find?_eq_some hq)
      have hqname : q.name = "." := by simpa using List.find?_some hq
      have hqp : q = p := List.inj_on_of_nodup_map hnodup' hqmem hsmem
        (by rw [hqname, hname])
      rw [hq, hqp]
    obtain ⟨ps, hb⟩ : ∃ ps, PackSet.build packs owning = some ps := by
      simp only [PackSet.build]
      rw [hashGet_name_index, hfind]
      exact ⟨_, rfl⟩
    refine ⟨ps, hb, ?_⟩
    rw [build_root_pack packs owning ps hb, hashGet_name_index, hfind]

/-- Witness for claim C7: a two-pack set containing the root pack `"."`
builds successfully and `root_pack` returns the root pack. -/
theorem c7_root_pack_required_witness :
    (⟨".", "package.yml", []⟩ : Pack) ∈
      ([⟨".", "package.yml", []⟩,
        ⟨"packs/foo", "packs/foo/package.yml", []⟩] : List Pack) ∧
    ∃ ps, PackSet.build
        [⟨".", "package.yml", []⟩,
         ⟨"packs/foo", "packs/foo/package.yml", []⟩] [] = some ps ∧
      ps.root_pack = some ⟨".", "package.yml", []⟩ :=
  ⟨by decide,
    (c7_root_pack_required
      [⟨".", "package.yml", []⟩,
       ⟨"packs/foo", "packs/foo/package.yml", []⟩] []).2
      ⟨".", "package.yml", []⟩ (by decide) rfl (by decide)⟩

/-- Claim C9, as stated, is false: a pack whose *name* ends in `'/'`
(here `"a/"`) makes the fatal branch of `for_file` reachable — the owner
name `"a/"` recorded by `build` is trimmed to `"a"` by `for_pack` before
the name-index lookup, which then fails, and `for_file` panics
(modelled as `none`). -/
theorem c9_for_file_counterexample :
    (PackSet.build
        [⟨".", "package.yml", []⟩, ⟨"a/", "a/package.yml", []⟩]
        [("f.rb", "a/package.yml")]).map
      (fun ps => ps.for_file "f.rb") = some none := rfl

/-- Claim C9 (amended): for every `PackSet` produced by `PackSet::build`
from packs none of whose names ends in a `'/'` (trimming trailing
separators leaves every name unchanged), the fatal branch of `for_file`
is unreachable: every recorded owner name survives trimming and is in
the name index, so `for_file` returns the owning pack or the no-owner
result and never panics. -/
theorem c9_for_file_never_panics_amended (packs : List Pack)
    (owning : List (String × String)) (ps : PackSet) (f : String)
    (hb : PackSet.build packs owning = some ps)
    (hslash : ∀ p ∈ packs, trim_end_matches_slash p.name = p.name) :
    ∃ r, ps.for_file f = some r := by
  obtain ⟨hidx, hown⟩ := build_fields packs owning ps hb
  cases hlook : hashGet ps.owning_pack_name_for_file f with
  | none =>
    refine ⟨none, ?_⟩
    unfold PackSet.for_file
    rw [hlook]
  | some nm =>
    have hnm : ∃ q ∈ List.insertionSort pack_order packs, q.name = nm := by
      rw [hown] at hlook
      rcases owning_fold_values _ owning [] f nm hlook with ⟨yml, hy⟩ | hinit
      · exact yml_index_value _ yml nm hy
      · simp [hashGet] at hinit
    obtain ⟨q, hqmem, hqname⟩ := hnm
    have hqpacks : q ∈ packs := (List.mem_insertionSort pack_order).mp hqmem
    have htrim : trim_end_matches_slash nm = nm := by
      rw [← hqname]; exact hslash q hqpacks
    obtain ⟨r, hr⟩ :=
      name_index_isSome (List.insertionSort pack_order packs) nm q hqmem hqname
    refine ⟨some r, ?_⟩
    unfold PackSet.for_file
    rw [hlook]
    simp only [PackSet.for_pack, htrim, hidx, hr]

/-- Witness for the amended claim C9: a well-formed two-pack build (no
name ends in `'/'`) where `for_file` returns the owner without reaching
the fatal branch. -/
theorem c9_for_file_never_panics_witness :
    ∃ ps, PackSet.build
        [⟨".", "package.yml", []⟩,
         ⟨"packs/foo", "packs/foo/package.yml", []⟩]
        [("f.rb", "packs/foo/package.yml")] = some ps ∧
      ∃ r, ps.for_file "f.rb" = some r := by
  refine ⟨_, rfl, ?_⟩
  exact c9_for_file_never_panics_amended
    [⟨".", "package.yml", []⟩, ⟨"packs/foo", "packs/foo/package.yml", []⟩]
    [("f.rb", "packs/foo/package.yml")] _ "f.rb" rfl (by decide)
